import Mathlib

/-!
Verification development for the job-posting monitor in `monitor_jobs.py`.

The change-detection and classification pipeline of the monitor is
embedded shallowly: the Python string primitives used by the code are
modelled over `String.data`, the persisted seen-set file is modelled as
the optional list of its lines (`none` when the file does not exist),
and each orchestration function becomes a pure function over that state.
-/

/-- Model of Python `str.lower` for the ASCII job titles the monitor handles. -/
def py_lower (s : String) : String := String.mk (s.data.map Char.toLower)

/-- Model of the Python substring test `sub in s`. -/
def py_in (sub s : String) : Bool := decide (sub.data <:+: s.data)

/-- Model of Python `s.startswith(p)`. -/
def py_startswith (s p : String) : Bool := decide (p.data <+: s.data)

/-- Model of Python `str.strip`: remove leading and trailing whitespace. -/
def py_strip (s : String) : String :=
  String.mk (((s.data.dropWhile Char.isWhitespace).reverse.dropWhile Char.isWhitespace).reverse)

/-- Global excluded keywords of `monitor_jobs.py` (`EXCLUDED_KEYWORDS`). -/
def EXCLUDED_KEYWORDS : List String :=
  ["staff", "manager", "site reliability", "sre", "mobile", "ios"]

/-- Translation of `is_excluded`: true when the lower-cased title contains a
globally excluded keyword. -/
def is_excluded (title : String) : Bool :=
  let t := py_lower title
  EXCLUDED_KEYWORDS.any (fun k => py_in k t)

/-- Deny tokens of `is_ms_relevant_title` (`exclude_tokens`). -/
def ms_exclude_tokens : List String :=
  ["senior", "principal", "director", "architect", "manager", "lead", "intern", "internship"]

/-- Accepted title beginnings of `is_ms_relevant_title` (`allowed_prefixes`). -/
def ms_allowed_starts : List String :=
  ["software engineer ii", "software engineer 2", "software engineer"]

/-- Translation of `is_ms_relevant_title`: lower-case the title, reject on any
deny token, then accept exactly when an accepted beginning matches. -/
def is_ms_relevant_title (title : String) : Bool :=
  let t := py_lower title
  if ms_exclude_tokens.any (fun tok => py_in tok t) then false
  else ms_allowed_starts.any (fun p => py_startswith t p)

/-- Deny tokens of `is_google_relevant_title` (`exclude_tokens`). -/
def google_exclude_tokens : List String :=
  ["senior", "principal", "director", "architect", "manager", "lead", "intern",
   "internship", "staff"]

/-- Accepted title beginnings of `is_google_relevant_title` (`allowed_prefixes`). -/
def google_allowed_starts : List String :=
  ["software engineer iii", "software engineer ii", "software engineer 3",
   "software engineer 2", "software engineer"]

/-- Translation of `is_google_relevant_title`: lower-case the title, reject on
any deny token, then accept exactly when an accepted beginning matches. -/
def is_google_relevant_title (title : String) : Bool :=
  let t := py_lower title
  if google_exclude_tokens.any (fun tok => py_in tok t) then false
  else google_allowed_starts.any (fun p => py_startswith t p)

/-- Scheme characters of standard URL syntax after the leading letter
(letters, digits, plus, minus, dot). -/
def scheme_char (c : Char) : Bool := c.isAlphanum || c = '+' || c = '-' || c = '.'

/-- Scan for a scheme terminator: true when a colon arrives while every
character before it is a scheme character. -/
def has_scheme_go : List Char → Bool
  | [] => false
  | c :: rest => if c = ':' then true else scheme_char c && has_scheme_go rest

/-- Modelled from the spec: whether a reference already carries a scheme
(standard URL syntax, a letter followed by scheme characters and a colon).
The Python standard library performing this in `urljoin` is not part of the
repository. -/
def has_scheme (url : String) : Bool :=
  match url.data with
  | [] => false
  | c :: rest => c.isAlpha && has_scheme_go rest

/-- Characters of the list until the first slash. -/
def take_until_slash : List Char → List Char
  | [] => []
  | c :: rest => if c = '/' then [] else c :: take_until_slash rest

/-- Characters of the list until the first colon. -/
def take_until_colon : List Char → List Char
  | [] => []
  | c :: rest => if c = ':' then [] else c :: take_until_colon rest

/-- Modelled from the spec: the origin (scheme and authority) of a base
address, for the http and https bases the monitor uses. -/
def url_origin (base : String) : String :=
  if py_startswith base "https://" then
    String.mk ("https://".data ++ take_until_slash (base.data.drop 8))
  else if py_startswith base "http://" then
    String.mk ("http://".data ++ take_until_slash (base.data.drop 7))
  else base

/-- Split at the first occurrence of a character: the parts before and after
it, the separator dropped; with the separator absent the second part is
empty, matching how resolution treats an absent and an empty component
alike. -/
def split_at_first (c : Char) : List Char → List Char × List Char
  | [] => ([], [])
  | x :: rest =>
    if x = c then ([], rest)
    else
      let p := split_at_first c rest
      (x :: p.1, p.2)

/-- Reference decomposition of standard resolution: the fragment starts at
the first hash mark, the query at the first question mark before it. -/
def url_split_ref (l : List Char) : List Char × List Char × List Char :=
  let hf := split_at_first '#' l
  let pq := split_at_first '?' hf.1
  (pq.1, pq.2, hf.2)

/-- Path segments: split the path on every slash. -/
def split_slash (l : List Char) : List (List Char) :=
  match l with
  | [] => [[]]
  | c :: rest =>
    match split_slash rest with
    | [] => [[]]
    | s :: ss => if c = '/' then [] :: s :: ss else (c :: s) :: ss

/-- Rejoin path segments with slashes. -/
def join_slash : List (List Char) → List Char
  | [] => []
  | [s] => s
  | s :: ss => s ++ '/' :: join_slash ss

/-- Remove-dot-segments walk of standard relative-URL resolution as urljoin
performs it: a ".." segment pops the previously resolved segment and is
ignored when there is none, a "." segment is skipped, every other segment is
kept. -/
def resolve_dots_go (resolved : List (List Char)) : List (List Char) → List (List Char)
  | [] => resolved.reverse
  | s :: rest =>
    if s = ['.', '.'] then
      match resolved with
      | [] => resolve_dots_go [] rest
      | _ :: ts => resolve_dots_go ts rest
    else if s = ['.'] then resolve_dots_go resolved rest
    else resolve_dots_go (s :: resolved) rest

/-- Remove dot segments from a segment list; a trailing "." or ".." leaves a
trailing slash, recorded as a trailing empty segment. -/
def resolve_dots (segments : List (List Char)) : List (List Char) :=
  let resolved := resolve_dots_go [] segments
  if segments.getLast? = some ['.'] ∨ segments.getLast? = some ['.', '.'] then
    resolved ++ [[]]
  else resolved

/-- Reassemble a resolved path below an authority: an empty joined path
becomes a single slash, and a joined path not starting with a slash gains
one. -/
def reassemble_path (segments : List (List Char)) : List Char :=
  match join_slash segments with
  | [] => ['/']
  | c :: rest => if c = '/' then c :: rest else '/' :: c :: rest

/-- Reattach a query or fragment component behind its separator; an empty
component disappears together with its separator. -/
def opt_sep (c : Char) (l : List Char) : List Char :=
  if l = [] then [] else c :: l

/-- Full resolution of a root-relative reference below an authority base:
decompose into path, query and fragment, remove the path's dot segments,
and reassemble. -/
def resolve_ref (l : List Char) : List Char :=
  let pqf := url_split_ref l
  reassemble_path (resolve_dots (split_slash pqf.1)) ++
    opt_sep '?' pqf.2.1 ++ opt_sep '#' pqf.2.2

/-- Middle segments that are empty disappear when a merged path is rejoined:
the first and last segments stay, empty ones in between are dropped. -/
def merge_mid_filter (segs : List (List Char)) : List (List Char) :=
  match segs with
  | [] => []
  | [s] => [s]
  | s :: rest =>
    s :: ((rest.dropLast.filter (fun x => !x.isEmpty)) ++ rest.getLast?.toList)

/-- Resolution of a path-relative reference: the reference's path segments
are appended to the base path's directory segments before the dot segments
are removed. -/
def resolve_merge (bpath l : List Char) : List Char :=
  let pqf := url_split_ref l
  let base_parts := split_slash bpath
  let base_parts :=
    if base_parts.getLast? = some [] then base_parts else base_parts.dropLast
  let segments := merge_mid_filter (base_parts ++ split_slash pqf.1)
  reassemble_path (resolve_dots segments) ++
    opt_sep '?' pqf.2.1 ++ opt_sep '#' pqf.2.2

/-- Modelled from the spec: standard relative-URL resolution
(`urllib.parse.urljoin` of the Python standard library, which is not part of
the repository) for the references the monitor exercises. An empty
reference returns the base; a reference carrying a scheme is used
unchanged; a network-path reference adopts the base scheme; a root-relative
reference replaces the base path by its own path with dot segments removed;
any other reference is merged onto the directory of the base path before
dot segments are removed. Query strings and fragments of the reference pass
through around the resolved path. Parameter components and references
consisting only of a query or fragment are not exercised by the monitor and
are not modelled. -/
def urljoin (base url : String) : String :=
  if url = "" then base
  else if has_scheme url then url
  else if py_startswith url "//" then
    String.mk (take_until_colon base.data ++ ':' :: url.data)
  else if py_startswith url "/" then
    String.mk ((url_origin base).data ++ resolve_ref url.data)
  else
    let origin := url_origin base
    String.mk (origin.data ++ resolve_merge (base.data.drop origin.data.length) url.data)

/-- Translation of `absolute`: an empty href yields the empty string; an href
already starting with the http or https scheme marker is returned unchanged;
everything else is resolved with `urljoin`. -/
def absolute (base href : String) : String :=
  if href = "" then ""
  else if py_startswith href "http://" || py_startswith href "https://" then href
  else urljoin base href

/-- Canonical posting record: source site, absolute url, display title. -/
structure Posting where
  source : String
  url : String
  title : String
deriving DecidableEq

/-- Base address used by `scrape_gs`. -/
def gs_base : String := "https://higher.gs.com"

/-- Loop body of `scrape_gs`: per-candidate stripping, the title filters, url
resolution, and the per-adapter first-seen-wins deduplication against the
accumulated `seen_urls`. -/
def scrape_gs_go (seen_urls : List String) : List (String × String) → List Posting
  | [] => []
  | (href, title) :: rest =>
    let href := py_strip href
    if title = "" || is_excluded title then scrape_gs_go seen_urls rest
    else
      let url := absolute gs_base href
      if seen_urls.contains url then scrape_gs_go seen_urls rest
      else ⟨"Goldman Sachs", url, title⟩ :: scrape_gs_go (url :: seen_urls) rest

/-- Pure core of `scrape_gs`: from the `(href, text)` pairs of the selected
anchors to the adapter's posting list, starting from an empty `seen_urls`. -/
def scrape_gs_core (cands : List (String × String)) : List Posting :=
  scrape_gs_go [] cands

/-- Result of one adapter call: the scraped postings, or the exception it
raised. -/
abbrev AdapterResult := Except String (List Posting)

/-- Per-adapter exception handler of `fetch_all`: a raising adapter
contributes zero postings and only a warning is printed. -/
def recover_adapter (r : AdapterResult) : List Posting :=
  match r with
  | .ok items => items
  | .error _ => []

/-- Translation of `fetch_all`: the five scrapers run in order, each wrapped
in its own handler, and their successes are concatenated into one list. -/
def fetch_all (gs paypal ms google meta : AdapterResult) : List Posting :=
  recover_adapter gs ++ recover_adapter paypal ++ recover_adapter ms ++
    recover_adapter google ++ recover_adapter meta

/-- Translation of `load_seen_jobs`: an absent file yields the empty set;
otherwise each line is stripped, blank results are dropped, and building a
set deduplicates. The file is modelled as the list of its lines and the set
as a duplicate-free list. -/
def load_seen_jobs (store : Option (List String)) : List String :=
  match store with
  | none => []
  | some lines => ((lines.map py_strip).filter (fun l => l != "")).dedup

/-- Translation of `save_new_jobs`: append one line per url, creating the
file when absent; empty input is a no-op. -/
def save_new_jobs (store : Option (List String)) (job_ids : List String) :
    Option (List String) :=
  if job_ids = [] then store
  else some (store.getD [] ++ job_ids)

/-- Deduplication loop of `initialize_seen`: the first occurrence of each url
enters `init_list`, later occurrences are dropped. -/
def init_dedup_go (seen_set : List String) : List String → List String
  | [] => []
  | u :: rest =>
    if seen_set.contains u then init_dedup_go seen_set rest
    else u :: init_dedup_go (u :: seen_set) rest

/-- Translation of `initialize_seen` as a store transition: the previous
store content is discarded and the deduplicated urls of the currently
fetched postings are written, one line each. -/
def initialize_seen (_prev : Option (List String)) (all_items : List Posting) :
    Option (List String) :=
  some (init_dedup_go [] (all_items.map Posting.url))

/-- Outcome of one `send_email` call: no transport interaction, a failed
transport attempt whose exception was caught and printed, or a delivered
message. -/
inductive SendOutcome
  | notAttempted
  | failed
  | sent
deriving DecidableEq

/-- Translation of `send_email`: immediate return on an empty list; missing
credentials skip sending; otherwise the message goes to the transport, whose
failure is caught inside the function and never re-raised. -/
def send_email (creds : Option (String × String)) (transportOk : Bool)
    (new_items : List Posting) : SendOutcome :=
  if new_items = [] then .notAttempted
  else
    match creds with
    | none => .notAttempted
    | some _ => if transportOk then .sent else .failed

/-- New-posting selection inside `run_once`: keep exactly the postings whose
url is not in the seen set, in their encounter order. -/
def run_detect (all_items : List Posting) (seen : List String) : List Posting :=
  all_items.filter (fun p => !(seen.contains p.url))

/-- Translation of `run_once` as a store transition: load the seen set, take
the fetched postings, select the new ones, and on a nonempty selection call
`send_email` and then append the urls; `send_email` never raises, so the
append does not depend on transport success. -/
def run_once (creds : Option (String × String)) (transportOk : Bool)
    (store : Option (List String)) (all_items : List Posting) :
    Option (List String) × SendOutcome :=
  let seen := load_seen_jobs store
  let new_items := run_detect all_items seen
  if new_items = [] then (store, .notAttempted)
  else (save_new_jobs store (new_items.map Posting.url),
        send_email creds transportOk new_items)

/-! Helper lemmas. -/

/-- A title that starts with a longer string also starts with any prefix of it. -/
theorem py_startswith_of_longer (t p q : String) (hpq : p.data <+: q.data)
    (h : py_startswith t q = true) : py_startswith t p = true :=
  decide_eq_true (hpq.trans (of_decide_eq_true h))

/-- C3: a title whose lower-casing contains a deny token of the source is
rejected by that source's classifier, even when an accepted beginning also
matches; in particular "Senior Software Engineer II" is rejected by the
Microsoft classifier (deny token "senior", accepted beginning
"software engineer ii") and by the Google classifier. -/
theorem deny_tokens_override_allowed_starts :
    (∀ title, (∃ tok ∈ ms_exclude_tokens, py_in tok (py_lower title) = true) →
      is_ms_relevant_title title = false) ∧
    (∀ title, (∃ tok ∈ google_exclude_tokens, py_in tok (py_lower title) = true) →
      is_google_relevant_title title = false) ∧
    is_ms_relevant_title "Senior Software Engineer II" = false ∧
    is_google_relevant_title "Senior Software Engineer II" = false := by
  refine ⟨?_, ?_, by decide, by decide⟩
  · intro title h
    simp only [is_ms_relevant_title]
    rw [if_pos (List.any_eq_true.mpr h)]
  · intro title h
    simp only [is_google_relevant_title]
    rw [if_pos (List.any_eq_true.mpr h)]

/-- C3 witness: the deny-token rule applied at the concrete title
"Senior Software Engineer II". -/
theorem deny_tokens_override_allowed_starts_w :
    is_ms_relevant_title "Senior Software Engineer II" = false :=
  deny_tokens_override_allowed_starts.1 "Senior Software Engineer II" (by decide)

/-- C10: any title whose lower-casing starts with "software engineer" and
contains no Microsoft deny token is accepted; "Software Engineer III" and
"Software Engineer 3" are accepted; and the two more specific accepted
beginnings are redundant, since the classifier agrees everywhere with the
variant that checks the generic beginning alone. -/
theorem ms_generic_start_suffices :
    (∀ title, py_startswith (py_lower title) "software engineer" = true →
      (∀ tok ∈ ms_exclude_tokens, py_in tok (py_lower title) = false) →
      is_ms_relevant_title title = true) ∧
    is_ms_relevant_title "Software Engineer III" = true ∧
    is_ms_relevant_title "Software Engineer 3" = true ∧
    (∀ title, is_ms_relevant_title title =
      (if ms_exclude_tokens.any (fun tok => py_in tok (py_lower title)) then false
       else py_startswith (py_lower title) "software engineer")) := by
  have hgen2 : ∀ title, py_startswith (py_lower title) "software engineer" = false →
      ms_allowed_starts.any (fun p => py_startswith (py_lower title) p) = false := by
    intro title hgen
    refine List.any_eq_false.mpr ?_
    intro p hp
    simp only [ms_allowed_starts, List.mem_cons, List.not_mem_nil, or_false] at hp
    rcases hp with rfl | rfl | rfl
    · intro hc
      have := py_startswith_of_longer (py_lower title) "software engineer"
        "software engineer ii" (by decide) hc
      rw [hgen] at this
      exact Bool.false_ne_true this
    · intro hc
      have := py_startswith_of_longer (py_lower title) "software engineer"
        "software engineer 2" (by decide) hc
      rw [hgen] at this
      exact Bool.false_ne_true this
    · intro hc
      rw [hgen] at hc
      exact Bool.false_ne_true hc
  refine ⟨?_, by decide, by decide, ?_⟩
  · intro title h1 h2
    have hex : ms_exclude_tokens.any (fun tok => py_in tok (py_lower title)) = false := by
      refine List.any_eq_false.mpr ?_
      intro tok htok
      rw [h2 tok htok]
      exact Bool.false_ne_true
    simp only [is_ms_relevant_title]
    rw [if_neg (by rw [hex]; exact Bool.false_ne_true)]
    exact List.any_eq_true.mpr ⟨"software engineer", by decide, h1⟩
  · intro title
    by_cases hex : ms_exclude_tokens.any (fun tok => py_in tok (py_lower title)) = true
    · simp only [is_ms_relevant_title]
      rw [if_pos hex, if_pos hex]
    · have hex' : ms_exclude_tokens.any (fun tok => py_in tok (py_lower title)) = false :=
        Bool.eq_false_iff.mpr hex
      simp only [is_ms_relevant_title]
      rw [if_neg hex, if_neg hex]
      cases hgen : py_startswith (py_lower title) "software engineer" with
      | false => exact hgen2 title hgen
      | true => exact List.any_eq_true.mpr ⟨"software engineer", by decide, hgen⟩

/-- C10 witness: the generic-beginning rule applied at the concrete title
"Software Engineer 4". -/
theorem ms_generic_start_suffices_w :
    is_ms_relevant_title "Software Engineer 4" = true :=
  ms_generic_start_suffices.1 "Software Engineer 4" (by decide) (by decide)

/-- C4: the new-posting selection is exactly the url-not-seen filter of the
current postings: a sublist of the input (so encounter order is preserved),
with membership and multiplicity given by the filter characterization, and a
pure function, returning the same list on the same inputs. -/
theorem run_detect_exact_filter :
    (∀ all_items seen, (run_detect all_items seen).Sublist all_items) ∧
    (∀ all_items seen p, p ∈ run_detect all_items seen ↔ p ∈ all_items ∧ p.url ∉ seen) ∧
    (∀ all_items seen p, (run_detect all_items seen).count p =
      if p.url ∈ seen then 0 else all_items.count p) ∧
    (∀ a₁ s₁ a₂ s₂, a₁ = a₂ → s₁ = s₂ → run_detect a₁ s₁ = run_detect a₂ s₂) := by
  refine ⟨fun a s => List.filter_sublist a, ?_, ?_, ?_⟩
  · intro a s p
    simp [run_detect, List.mem_filter]
  · intro a s p
    by_cases h : p.url ∈ s
    · rw [if_pos h, List.count_eq_zero]
      simp [run_detect, List.mem_filter, h]
    · rw [if_neg h]
      apply List.count_filter
      simp [h]
  · rintro a s a' s' rfl rfl
    rfl

/-- C4 witness: the filter characterization applied at a concrete run with
one seen and one unseen posting. -/
theorem run_detect_exact_filter_w :
    Posting.mk "Goldman Sachs" "https://higher.gs.com/roles/2" "Software Engineer" ∈
      run_detect
        [Posting.mk "Goldman Sachs" "https://higher.gs.com/roles/1" "Software Engineer",
         Posting.mk "Goldman Sachs" "https://higher.gs.com/roles/2" "Software Engineer"]
        ["https://higher.gs.com/roles/1"] :=
  (run_detect_exact_filter.2.1 _ _ _).mpr (by decide)

/-- Membership characterization of loading a present store: exactly the
non-blank stripped lines. -/
theorem mem_load_seen_jobs_some (lines : List String) (u : String) :
    u ∈ load_seen_jobs (some lines) ↔
      (∃ ln ∈ lines, py_strip ln = u) ∧ u ≠ "" := by
  simp only [load_seen_jobs, List.mem_dedup, List.mem_filter, List.mem_map, bne_iff_ne,
    ne_eq]

/-- C7: loading an absent store yields the empty set and does not fail;
loading any store yields a duplicate-free list whose members are exactly the
non-blank stripped lines, so duplicate and blank lines collapse to set
semantics. -/
theorem load_seen_jobs_missing_and_dedup :
    load_seen_jobs none = [] ∧
    (∀ lines, (load_seen_jobs (some lines)).Nodup) ∧
    (∀ lines u, u ∈ load_seen_jobs (some lines) ↔
      (∃ ln ∈ lines, py_strip ln = u) ∧ u ≠ "") :=
  ⟨rfl, fun _ => List.nodup_dedup _, fun lines u => mem_load_seen_jobs_some lines u⟩

/-- C7 witness: the load characterization applied at a concrete store with a
duplicate line, a padded line and a blank line. -/
theorem load_seen_jobs_missing_and_dedup_w :
    ((load_seen_jobs (some ["https://a/1", "https://a/1", "  https://a/2  ", ""])).Nodup ∧
      "https://a/2" ∈ load_seen_jobs (some ["https://a/1", "https://a/1", "  https://a/2  ", ""])) :=
  ⟨load_seen_jobs_missing_and_dedup.2.1 _,
    (load_seen_jobs_missing_and_dedup.2.2 _ _).mpr (by decide)⟩

/-- C8: a raising adapter is caught at its own boundary by `fetch_all` and
contributes zero postings while the run continues: replacing any single
adapter's exception by an empty success leaves the merged list unchanged,
and with the remaining adapters succeeding, the merged list is exactly the
concatenation of their postings. -/
theorem fetch_all_isolates_failures :
    (∀ e r₂ r₃ r₄ r₅, fetch_all (.error e) r₂ r₃ r₄ r₅ = fetch_all (.ok []) r₂ r₃ r₄ r₅) ∧
    (∀ e r₁ r₃ r₄ r₅, fetch_all r₁ (.error e) r₃ r₄ r₅ = fetch_all r₁ (.ok []) r₃ r₄ r₅) ∧
    (∀ e r₁ r₂ r₄ r₅, fetch_all r₁ r₂ (.error e) r₄ r₅ = fetch_all r₁ r₂ (.ok []) r₄ r₅) ∧
    (∀ e r₁ r₂ r₃ r₅, fetch_all r₁ r₂ r₃ (.error e) r₅ = fetch_all r₁ r₂ r₃ (.ok []) r₅) ∧
    (∀ e r₁ r₂ r₃ r₄, fetch_all r₁ r₂ r₃ r₄ (.error e) = fetch_all r₁ r₂ r₃ r₄ (.ok [])) ∧
    (∀ e l₂ l₃ l₄ l₅, fetch_all (.error e) (.ok l₂) (.ok l₃) (.ok l₄) (.ok l₅) =
      l₂ ++ l₃ ++ l₄ ++ l₅) := by
  refine ⟨?_, ?_, ?_, ?_, ?_, ?_⟩ <;> intros <;> rfl

/-- C9: a run whose detected new set is empty leaves the store untouched and
never reaches the transport, and `send_email` on an empty list returns
without side effect. -/
theorem empty_new_set_no_side_effect :
    (∀ creds transportOk store all_items,
      run_detect all_items (load_seen_jobs store) = [] →
      run_once creds transportOk store all_items = (store, SendOutcome.notAttempted)) ∧
    (∀ creds transportOk, send_email creds transportOk [] = SendOutcome.notAttempted) := by
  constructor
  · intro creds transportOk store all_items h
    simp only [run_once, h, if_pos]
  · intro creds transportOk
    rfl

/-- C9 witness: a run whose only fetched posting is already seen changes
nothing and sends nothing. -/
theorem empty_new_set_no_side_effect_w :
    run_once (some ("user@example.com", "pw")) true (some ["https://a/1"])
      [Posting.mk "Goldman Sachs" "https://a/1" "Software Engineer"] =
      (some ["https://a/1"], SendOutcome.notAttempted) :=
  empty_new_set_no_side_effect.1 _ _ _ _ (by decide)

/-- C2: at a concrete run with one new posting, credentials present and a
failing transport, `run_once` still appends the posting's url to the store:
the transport exception is swallowed inside `send_email` and the append is
unconditional, so the next run with the same fetch detects nothing new
instead of reporting the posting again. -/
theorem run_once_persists_despite_failed_send :
    run_once (some ("user@example.com", "pw")) false none
      [Posting.mk "Goldman Sachs" "https://x.example/job/1" "Software Engineer"] =
      (some ["https://x.example/job/1"], SendOutcome.failed) ∧
    run_detect [Posting.mk "Goldman Sachs" "https://x.example/job/1" "Software Engineer"]
      (load_seen_jobs (some ["https://x.example/job/1"])) = [] := by decide

/-- Membership in the deduplication loop of `initialize_seen`: an element is
kept exactly when it occurs in the input and is not in the accumulator. -/
theorem mem_init_dedup_go (v : String) :
    ∀ (l : List String) (seen_set : List String),
      v ∈ init_dedup_go seen_set l ↔ v ∈ l ∧ v ∉ seen_set := by
  intro l
  induction l with
  | nil => intro seen_set; simp [init_dedup_go]
  | cons u rest ih =>
    intro seen_set
    simp only [init_dedup_go]
    by_cases hu : seen_set.contains u = true
    · rw [if_pos hu]
      rw [ih seen_set]
      simp only [List.mem_cons]
      constructor
      · rintro ⟨hv, hns⟩
        exact ⟨Or.inr hv, hns⟩
      · rintro ⟨hv | hv, hns⟩
        · subst hv
          exact absurd (by simpa using hu) hns
        · exact ⟨hv, hns⟩
    · rw [if_neg hu]
      have hu' : u ∉ seen_set := by
        intro hmem
        exact hu (by simpa using hmem)
      simp only [List.mem_cons, ih (u :: seen_set), List.mem_cons]
      constructor
      · rintro (rfl | ⟨hv, hns⟩)
        · exact ⟨Or.inl rfl, hu'⟩
        · exact ⟨Or.inr hv, fun hs => hns (Or.inr hs)⟩
      · rintro ⟨rfl | hv, hns⟩
        · exact Or.inl rfl
        · by_cases hvu : v = u
          · exact Or.inl hvu
          · exact Or.inr ⟨hv, fun hm => hm.elim hvu hns⟩

/-- C5: after `initialize_seen` writes the snapshot of currently fetched
urls, each a non-blank single line, a subsequent load returns exactly the
set of those urls, whatever the store held before the overwrite. -/
theorem initialize_then_load_exact :
    ∀ (prev : Option (List String)) (all_items : List Posting),
      (∀ u ∈ all_items.map Posting.url, py_strip u = u ∧ u ≠ "") →
      ∀ v, v ∈ load_seen_jobs (initialize_seen prev all_items) ↔
        v ∈ all_items.map Posting.url := by
  intro prev all_items h v
  have hmem := mem_load_seen_jobs_some (init_dedup_go [] (all_items.map Posting.url)) v
  rw [show load_seen_jobs (initialize_seen prev all_items) =
      load_seen_jobs (some (init_dedup_go [] (all_items.map Posting.url))) from rfl]
  rw [hmem]
  constructor
  · rintro ⟨⟨ln, hln, rfl⟩, _⟩
    have hln' : ln ∈ all_items.map Posting.url := ((mem_init_dedup_go ln _ _).mp hln).1
    rw [(h ln hln').1]
    exact hln'
  · intro hv
    have hs := h v hv
    refine ⟨⟨v, ?_, hs.1⟩, hs.2⟩
    exact (mem_init_dedup_go v _ _).mpr ⟨hv, by simp⟩

/-- C5 witness: reinitializing over a nonempty previous store with two
postings sharing one url, loading returns exactly that url's singleton set. -/
theorem initialize_then_load_exact_w :
    ("https://a/1" ∈ load_seen_jobs (initialize_seen (some ["https://old/9"])
        [Posting.mk "Goldman Sachs" "https://a/1" "T1",
         Posting.mk "PayPal" "https://a/1" "T2"]) ∧
     "https://old/9" ∉ load_seen_jobs (initialize_seen (some ["https://old/9"])
        [Posting.mk "Goldman Sachs" "https://a/1" "T1",
         Posting.mk "PayPal" "https://a/1" "T2"])) := by
  constructor
  · exact (initialize_then_load_exact (some ["https://old/9"]) _ (by decide) _).mpr (by decide)
  · intro hmem
    have := (initialize_then_load_exact (some ["https://old/9"]) _ (by decide) _).mp hmem
    simp at this

/-- C1 counterexample: two adapters report the same url with different
titles, yet the merged candidate list of the fetch pass carries that url
twice, and both postings reach the change detection on an empty seen set. -/
theorem merged_list_duplicate_url_counterexample :
    ((fetch_all (.ok [Posting.mk "Goldman Sachs" "https://dup.example/job" "T1"])
        (.ok [Posting.mk "PayPal" "https://dup.example/job" "T2"])
        (.ok []) (.ok []) (.ok [])).map Posting.url).count "https://dup.example/job" = 2 ∧
    (run_detect (fetch_all (.ok [Posting.mk "Goldman Sachs" "https://dup.example/job" "T1"])
        (.ok [Posting.mk "PayPal" "https://dup.example/job" "T2"])
        (.ok []) (.ok []) (.ok [])) []).length = 2 := by decide

/-- Urls produced by the scraper loop never lie in the accumulated seen set. -/
theorem scrape_gs_go_urls_not_seen :
    ∀ (cands : List (String × String)) (seen_urls : List String) (u : String),
      u ∈ (scrape_gs_go seen_urls cands).map Posting.url → u ∉ seen_urls := by
  intro cands
  induction cands with
  | nil =>
    intro seen u h
    simp [scrape_gs_go] at h
  | cons c rest ih =>
    intro seen u h
    obtain ⟨href, title⟩ := c
    simp only [scrape_gs_go] at h
    by_cases ht : (title = "" || is_excluded title) = true
    · rw [if_pos ht] at h
      exact ih seen u h
    · rw [if_neg ht] at h
      by_cases hc : seen.contains (absolute gs_base (py_strip href)) = true
      · rw [if_pos hc] at h
        exact ih seen u h
      · rw [if_neg hc] at h
        simp only [List.map_cons, List.mem_cons] at h
        rcases h with rfl | h
        · intro hm
          exact hc (by simpa using hm)
        · intro hm
          exact (ih _ u h) (List.mem_cons_of_mem _ hm)

/-- C1 support: within one adapter call the produced urls are distinct. -/
theorem scrape_gs_go_urls_nodup :
    ∀ (cands : List (String × String)) (seen_urls : List String),
      ((scrape_gs_go seen_urls cands).map Posting.url).Nodup := by
  intro cands
  induction cands with
  | nil =>
    intro seen
    simp [scrape_gs_go]
  | cons c rest ih =>
    intro seen
    obtain ⟨href, title⟩ := c
    simp only [scrape_gs_go]
    by_cases ht : (title = "" || is_excluded title) = true
    · rw [if_pos ht]
      exact ih seen
    · rw [if_neg ht]
      by_cases hc : seen.contains (absolute gs_base (py_strip href)) = true
      · rw [if_pos hc]
        exact ih seen
      · rw [if_neg hc]
        simp only [List.map_cons]
        refine List.nodup_cons.mpr ⟨?_, ih _⟩
        intro hmem
        exact (scrape_gs_go_urls_not_seen rest _ _ hmem) (List.mem_cons_self _ _)

/-- C1 support: a later candidate whose resolved url was already produced or
already seen changes nothing in the adapter output. -/
theorem scrape_gs_go_drops_later_duplicate :
    ∀ (cands : List (String × String)) (seen_urls : List String) (href title : String),
      (seen_urls.contains (absolute gs_base (py_strip href)) = true ∨
        absolute gs_base (py_strip href) ∈ (scrape_gs_go seen_urls cands).map Posting.url) →
      scrape_gs_go seen_urls (cands ++ [(href, title)]) = scrape_gs_go seen_urls cands := by
  intro cands
  induction cands with
  | nil =>
    intro seen href title h
    simp only [List.nil_append, scrape_gs_go]
    by_cases ht : (title = "" || is_excluded title) = true
    · rw [if_pos ht]
    · rw [if_neg ht]
      rcases h with h | h
      · rw [if_pos h]
      · simp [scrape_gs_go] at h
  | cons c rest ih =>
    intro seen href title h
    obtain ⟨h₀, t₀⟩ := c
    simp only [List.cons_append, scrape_gs_go]
    by_cases ht : (t₀ = "" || is_excluded t₀) = true
    · simp only [if_pos ht]
      refine ih seen href title ?_
      rcases h with h | h
      · exact Or.inl h
      · right
        simpa only [scrape_gs_go, if_pos ht] using h
    · simp only [if_neg ht]
      by_cases hc : seen.contains (absolute gs_base (py_strip h₀)) = true
      · simp only [if_pos hc]
        refine ih seen href title ?_
        rcases h with h | h
        · exact Or.inl h
        · right
          simpa only [scrape_gs_go, if_neg ht, if_pos hc] using h
      · simp only [if_neg hc]
        congr 1
        refine ih _ href title ?_
        rcases h with h | h
        · have hm : absolute gs_base (py_strip href) ∈ seen := by simpa using h
          exact Or.inl (by simp [List.mem_cons_of_mem _ hm])
        · have h' := h
          simp only [scrape_gs_go, if_neg ht, if_neg hc, List.map_cons, List.mem_cons] at h'
          rcases h' with heq | h'
          · exact Or.inl (by simp [heq])
          · exact Or.inr h'

/-- C1 amended: deduplication is per adapter, not across the merged list:
within one adapter's output of a fetch pass each url occurs at most once and
a later candidate resolving to an already-produced url is dropped, keeping
the first-encountered record; the merged candidate list is the plain
concatenation of the five adapter outputs, with no deduplication across
adapters, so a url reported by several adapters reaches the Change Detector
once per adapter. -/
theorem per_adapter_first_seen_dedup :
    (∀ cands, ((scrape_gs_core cands).map Posting.url).Nodup) ∧
    (∀ cands href title,
      absolute gs_base (py_strip href) ∈ (scrape_gs_core cands).map Posting.url →
      scrape_gs_core (cands ++ [(href, title)]) = scrape_gs_core cands) ∧
    (∀ l₁ l₂ l₃ l₄ l₅, fetch_all (.ok l₁) (.ok l₂) (.ok l₃) (.ok l₄) (.ok l₅) =
      l₁ ++ l₂ ++ l₃ ++ l₄ ++ l₅) := by
  refine ⟨fun cands => scrape_gs_go_urls_nodup cands [], ?_, fun _ _ _ _ _ => rfl⟩
  intro cands href title h
  exact scrape_gs_go_drops_later_duplicate cands [] href title (Or.inr h)

/-- C1 amended witness: a repeated candidate href inside one adapter call is
dropped, so the adapter output is unchanged by the duplicate. -/
theorem per_adapter_first_seen_dedup_w :
    scrape_gs_core [("/roles/1", "Software Engineer"), ("/roles/1", "Software Engineer Again")] =
      scrape_gs_core [("/roles/1", "Software Engineer")] :=
  per_adapter_first_seen_dedup.2.1 [("/roles/1", "Software Engineer")]
    "/roles/1" "Software Engineer Again" (by decide)

/-- C6 counterexample: the empty identifier carries no scheme and standard
relative-URL resolution of an empty reference returns the base address, but
`absolute` maps it to the empty string instead: at base
"https://example.com" and identifier "" the code does not resolve as the
claim states. -/
theorem absolute_empty_href_counterexample :
    has_scheme "" = false ∧
    urljoin "https://example.com" "" = "https://example.com" ∧
    absolute "https://example.com" "" = "" ∧
    absolute "https://example.com" "" ≠ urljoin "https://example.com" "" := by decide

/-- A character list without a slash passes through `take_until_slash`
unchanged. -/
theorem take_until_slash_of_no_slash :
    ∀ (l : List Char), '/' ∉ l → take_until_slash l = l := by
  intro l
  induction l with
  | nil => intro _; rfl
  | cons c rest ih =>
    intro h
    simp only [take_until_slash]
    rw [if_neg (fun hc => h (by rw [hc]; exact List.mem_cons_self _ _))]
    rw [ih (fun hm => h (List.mem_cons_of_mem c hm))]

/-- A separator character that does not occur splits off nothing. -/
theorem split_at_first_not_mem (c : Char) :
    ∀ (l : List Char), c ∉ l → split_at_first c l = (l, []) := by
  intro l
  induction l with
  | nil => intro _; rfl
  | cons x rest ih =>
    intro h
    simp only [split_at_first]
    rw [if_neg (fun hx => h (by rw [hx]; exact List.mem_cons_self _ _))]
    rw [ih (fun hm => h (List.mem_cons_of_mem x hm))]

/-- Splitting on slashes never yields an empty segment list. -/
theorem split_slash_ne_nil : ∀ (l : List Char), split_slash l ≠ [] := by
  intro l
  induction l with
  | nil => simp [split_slash]
  | cons c rest ih =>
    simp only [split_slash]
    rcases hsp : split_slash rest with _ | ⟨s, ss⟩
    · exact absurd hsp ih
    · show (if c = '/' then [] :: s :: ss else (c :: s) :: ss) ≠ []
      by_cases hc : c = '/'
      · rw [if_pos hc]
        simp
      · rw [if_neg hc]
        simp

/-- Joining undoes splitting on slashes. -/
theorem join_split_slash : ∀ (l : List Char), join_slash (split_slash l) = l := by
  intro l
  induction l with
  | nil => rfl
  | cons c rest ih =>
    simp only [split_slash]
    rcases hsp : split_slash rest with _ | ⟨s, ss⟩
    · exact absurd hsp (split_slash_ne_nil rest)
    · rw [hsp] at ih
      show join_slash (if c = '/' then [] :: s :: ss else (c :: s) :: ss) = c :: rest
      by_cases hc : c = '/'
      · subst hc
        rw [if_pos rfl]
        simp only [join_slash, List.nil_append]
        rw [ih]
      · rw [if_neg hc]
        cases ss with
        | nil =>
          simp only [join_slash] at ih ⊢
          rw [ih]
        | cons s₂ ss₂ =>
          simp only [join_slash] at ih ⊢
          rw [List.cons_append, ih]

/-- A segment of a split path only contains characters of the path. -/
theorem mem_of_mem_split_slash :
    ∀ (l : List Char) (s : List Char), s ∈ split_slash l → ∀ c ∈ s, c ∈ l := by
  intro l
  induction l with
  | nil =>
    intro s hs c hc
    simp only [split_slash, List.mem_singleton] at hs
    subst hs
    simp at hc
  | cons x rest ih =>
    intro s hs c hc
    simp only [split_slash] at hs
    rcases hsp : split_slash rest with _ | ⟨t, ts⟩
    · exact absurd hsp (split_slash_ne_nil rest)
    · rw [hsp] at hs
      have hs₂ : s ∈ (if x = '/' then [] :: t :: ts else (x :: t) :: ts) := hs
      by_cases hx : x = '/'
      · rw [if_pos hx] at hs₂
        rcases List.mem_cons.mp hs₂ with rfl | hs'
        · simp at hc
        · exact List.mem_cons_of_mem x (ih s (by rw [hsp]; exact hs') c hc)
      · rw [if_neg hx] at hs₂
        rcases List.mem_cons.mp hs₂ with rfl | hs'
        · rcases List.mem_cons.mp hc with rfl | hc'
          · exact List.mem_cons_self _ _
          · exact List.mem_cons_of_mem x
              (ih t (by rw [hsp]; exact List.mem_cons_self t ts) c hc')
        · exact List.mem_cons_of_mem x
            (ih s (by rw [hsp]; exact List.mem_cons_of_mem t hs') c hc)

/-- Without dot segments the remove-dot walk keeps every segment. -/
theorem resolve_dots_go_no_dots :
    ∀ (segs : List (List Char)) (resolved : List (List Char)),
      (∀ s ∈ segs, s ≠ ['.'] ∧ s ≠ ['.', '.']) →
      resolve_dots_go resolved segs = resolved.reverse ++ segs := by
  intro segs
  induction segs with
  | nil =>
    intro resolved _
    simp [resolve_dots_go]
  | cons s rest ih =>
    intro resolved h
    have hs := h s (List.mem_cons_self _ _)
    simp only [resolve_dots_go]
    rw [if_neg hs.2, if_neg hs.1]
    rw [ih (s :: resolved) (fun t ht => h t (List.mem_cons_of_mem s ht))]
    simp

/-- Without dot segments, dot removal is the identity. -/
theorem resolve_dots_no_dots (segs : List (List Char))
    (h : ∀ s ∈ segs, s ≠ ['.'] ∧ s ≠ ['.', '.']) : resolve_dots segs = segs := by
  have hlast : ¬ (segs.getLast? = some ['.'] ∨ segs.getLast? = some ['.', '.']) := by
    rintro (hl | hl)
    · obtain ⟨ys, hys⟩ := List.getLast?_eq_some_iff.mp hl
      subst hys
      have hend := h ['.'] (by simp)
      simp at hend
    · obtain ⟨ys, hys⟩ := List.getLast?_eq_some_iff.mp hl
      subst hys
      have hend := h ['.', '.'] (by simp)
      simp at hend
  simp only [resolve_dots]
  rw [if_neg hlast, resolve_dots_go_no_dots segs [] h]
  rfl

/-- A root-relative reference without dot, question-mark or hash characters
resolves to itself. -/
theorem resolve_ref_no_dots (l : List Char) (t : List Char) (hl : l = '/' :: t)
    (hdot : '.' ∉ l) (hq : '?' ∉ l) (hh : '#' ∉ l) : resolve_ref l = l := by
  have hnodots : ∀ s ∈ split_slash l, s ≠ ['.'] ∧ s ≠ ['.', '.'] := by
    intro s hs
    constructor
    · intro hrfl
      exact hdot (mem_of_mem_split_slash l s hs '.'
        (by rw [hrfl]; exact List.mem_cons_self _ _))
    · intro hrfl
      exact hdot (mem_of_mem_split_slash l s hs '.'
        (by rw [hrfl]; exact List.mem_cons_self _ _))
  simp only [resolve_ref, url_split_ref, split_at_first_not_mem '#' l hh,
    split_at_first_not_mem '?' l hq]
  rw [resolve_dots_no_dots _ hnodots]
  simp only [reassemble_path, join_split_slash l]
  subst hl
  simp [opt_sep]

/-- C6 amended: for every non-empty raw identifier, one already starting
with the http or https scheme marker is returned unchanged, and a
root-relative identifier against a host-only base is resolved by standard
relative-URL resolution: the base origin is prepended and the identifier's
dot segments are removed while its query string and fragment pass through;
an identifier without dot, question-mark or hash characters passes through
by plain concatenation. In particular "/roles/42" against base
"https://example.com" yields exactly "https://example.com/roles/42",
"/a/../b" yields "https://example.com/b", and "/a/./b?q=1#f" yields
"https://example.com/a/b?q=1#f". The empty identifier is the one exception:
the code maps it to the empty string instead of resolving it. -/
theorem absolute_resolves_nonempty :
    (∀ base href, (py_startswith href "http://" || py_startswith href "https://") = true →
      absolute base href = href) ∧
    (∀ (host url : String), '/' ∉ host.data →
      py_startswith url "/" = true → py_startswith url "//" = false →
      absolute (String.mk ("https://".data ++ host.data)) url =
        String.mk ("https://".data ++ host.data ++ resolve_ref url.data)) ∧
    (∀ (host url : String), '/' ∉ host.data →
      py_startswith url "/" = true → py_startswith url "//" = false →
      '.' ∉ url.data → '?' ∉ url.data → '#' ∉ url.data →
      absolute (String.mk ("https://".data ++ host.data)) url =
        String.mk ("https://".data ++ host.data ++ url.data)) ∧
    absolute "https://example.com" "/roles/42" = "https://example.com/roles/42" ∧
    absolute "https://example.com" "/a/../b" = "https://example.com/b" ∧
    absolute "https://example.com" "/a/./b?q=1#f" = "https://example.com/a/b?q=1#f" := by
  have main : ∀ (host url : String), '/' ∉ host.data →
      py_startswith url "/" = true → py_startswith url "//" = false →
      absolute (String.mk ("https://".data ++ host.data)) url =
        String.mk ("https://".data ++ host.data ++ resolve_ref url.data) := by
    intro host url hhost h1 h2
    obtain ⟨t, ht⟩ := of_decide_eq_true h1
    have hud : url.data = '/' :: t := by
      rw [← ht]
      rfl
    have hne : url ≠ "" := by
      intro hrfl
      rw [hrfl] at hud
      exact absurd hud (by simp)
    have hh1 : py_startswith url "http://" = false := by
      apply decide_eq_false
      intro hp
      rw [hud] at hp
      rcases List.cons_prefix_cons.mp hp with ⟨hhead, _⟩
      exact absurd hhead (by decide)
    have hh2 : py_startswith url "https://" = false := by
      apply decide_eq_false
      intro hp
      rw [hud] at hp
      rcases List.cons_prefix_cons.mp hp with ⟨hhead, _⟩
      exact absurd hhead (by decide)
    have hsch : has_scheme url = false := by
      simp only [has_scheme, hud]
      rw [show ('/').isAlpha = false from rfl]
      rfl
    simp only [absolute]
    rw [if_neg hne, if_neg (show ¬ ((py_startswith url "http://" ||
      py_startswith url "https://") = true) by rw [hh1, hh2]; exact Bool.false_ne_true)]
    simp only [urljoin]
    rw [if_neg hne, if_neg (show ¬ (has_scheme url = true) by
        rw [hsch]; exact Bool.false_ne_true),
      if_neg (show ¬ (py_startswith url "//" = true) by
        rw [h2]; exact Bool.false_ne_true),
      if_pos h1]
    have hbase : py_startswith (String.mk ("https://".data ++ host.data)) "https://" = true :=
      decide_eq_true (List.prefix_append _ _)
    have hdrop : (String.mk ("https://".data ++ host.data)).data.drop 8 = host.data :=
      List.drop_left' (by decide)
    simp only [url_origin, if_pos hbase, hdrop,
      take_until_slash_of_no_slash host.data hhost]
  refine ⟨?_, main, ?_, by decide, by decide, by decide⟩
  · intro base href h
    have hor : py_startswith href "http://" = true ∨ py_startswith href "https://" = true := by
      simpa using h
    have hd : href.data ≠ [] := by
      rcases hor with h' | h' <;>
      · obtain ⟨t, ht⟩ := of_decide_eq_true h'
        rw [← ht]
        simp
    have hne : href ≠ "" := by
      intro hrfl
      rw [hrfl] at hd
      exact hd rfl
    simp only [absolute]
    rw [if_neg hne, if_pos h]
  · intro host url hhost h1 h2 hdot hq hh
    rw [main host url hhost h1 h2]
    obtain ⟨t, ht⟩ := of_decide_eq_true h1
    rw [resolve_ref_no_dots url.data t (by rw [← ht]; rfl) hdot hq hh]

/-- C6 amended witness: the scheme-carrying case, the general resolution
case at a dot-segment reference carrying a query and a fragment, and the
plain pass-through case, applied at concrete inputs. -/
theorem absolute_resolves_nonempty_w :
    absolute "https://a.com" "https://b.com/x" = "https://b.com/x" ∧
    absolute (String.mk ("https://".data ++ "example.com".data)) "/a/../b?q=1#f" =
      String.mk ("https://".data ++ "example.com".data ++ resolve_ref "/a/../b?q=1#f".data) ∧
    absolute (String.mk ("https://".data ++ "example.com".data)) "/roles/42" =
      String.mk ("https://".data ++ "example.com".data ++ "/roles/42".data) :=
  ⟨absolute_resolves_nonempty.1 "https://a.com" "https://b.com/x" (by decide),
   absolute_resolves_nonempty.2.1 "example.com" "/a/../b?q=1#f"
     (by decide) (by decide) (by decide),
   absolute_resolves_nonempty.2.2.1 "example.com" "/roles/42"
     (by decide) (by decide) (by decide) (by decide) (by decide) (by decide)⟩
